import Mathlib

/-!
Shallow embedding of the classification-and-organization pipeline of
`bitwarden_organizer/core.py`, together with theorems settling the frozen
claims about it.

Modelling conventions:
* Python dictionaries of the export schema become structures whose fields are
  `Option`-typed where the corresponding key may be absent (`d.get(k)`).
* `uuid.uuid4()` is replaced by a deterministic fresh-id supply threaded as a
  `Nat` counter (`gen_id`); `datetime.now().isoformat()` is threaded as an
  explicit `now : String` argument.  Neither affects any control flow.
* The AI-assisted branch of `organize_item` / `organize_bitwarden_export`
  (`config.ai_enabled and config.ai_config`) calls an external collaborator
  that the spec declares out of scope; it is guarded by `ai_config` being
  present, whose default is `None`, so the embedding models the rule-based
  path (`ai_config = None`).
* Python `set` values for tags are modelled as lists; every tag set occurring
  in `CATEGORY_RULES` and the default is a singleton literal, and the only
  operations used on them are `sorted` and emptiness.
-/

namespace Bw

/-- A custom field of an item: `{name, value, type}` (`type 0` is text). -/
structure Field where
  name : Option String
  value : String
  type : Nat
deriving DecidableEq

/-- One entry of `login.uris`; `uri` may be missing or `null`. -/
structure UriEntry where
  uri : Option String
deriving DecidableEq

/-- The `login` sub-object; only `uris` is read by the core. -/
structure Login where
  uris : Option (List UriEntry)
deriving DecidableEq

/-- A credential item, restricted to the keys the core reads or writes. -/
structure Item where
  name : Option String
  notes : Option String
  login : Option Login
  fields : Option (List Field)
  folderId : Option String
  collectionIds : Option (List String)
deriving DecidableEq

/-- A folder or collection entry `{id, name, revisionDate}`. -/
structure Folder where
  id : String
  name : Option String
  revisionDate : String
deriving DecidableEq

/-- A Bitwarden export document (a mapping). -/
structure Document where
  folders : Option (List Folder)
  collections : Option (List Folder)
  items : Option (List Item)
deriving DecidableEq

/-- Input to `organize_bitwarden_export`: either a mapping or some other
value (`nonDict`), for which the `isinstance(data, dict)` check fails. -/
inductive BwData where
  | dict (d : Document)
  | nonDict
deriving DecidableEq

/-- `OrganizerConfig` (the AI fields are omitted: `ai_config` defaults to
`None`, which disables the out-of-scope AI branch). -/
structure OrganizerConfig where
  dry_run : Bool := false
  verbose : Bool := false
  add_metadata : Bool := true
  suggest_names : Bool := true
  create_folders : Bool := true
  add_tags : Bool := true
  fallback_to_rules : Bool := true
deriving DecidableEq

/-- The mutable state threaded through a run: the shared folder and
collection lists plus the fresh-id supply. -/
structure OrgState where
  folders : List Folder
  collections : List Folder
  nextId : Nat
deriving DecidableEq

/-- Fresh id supply standing in for `str(uuid.uuid4())`. -/
def gen_id (n : Nat) : String := "uuid-" ++ toString n

/-- `is_org_export`: a mapping that has a `collections` key. -/
def is_org_export : BwData → Bool
  | .dict d => d.collections.isSome
  | .nonDict => false

/-- Python `str.lower()` (ASCII case mapping, which covers the data the
pipeline compares). -/
def pyLower (s : String) : String := String.mk (s.data.map Char.toLower)

/-- Python `str.strip()`: remove leading and trailing whitespace. -/
def pyStrip (s : String) : String :=
  String.mk (((s.data.dropWhile Char.isWhitespace).reverse.dropWhile
    Char.isWhitespace).reverse)

/-- Helper of `splitChar`: split the remaining characters on `sep`, with the
current chunk accumulated in reverse. -/
def splitCharGo (sep : Char) : List Char → List Char → List String
  | [], cur => [String.mk cur.reverse]
  | c :: rest, cur =>
    if c == sep then String.mk cur.reverse :: splitCharGo sep rest []
    else splitCharGo sep rest (c :: cur)

/-- Python `str.split(sep)` for a one-character separator
(`"".split(".") == [""]`, separators at the ends produce empty chunks). -/
def splitChar (sep : Char) (s : String) : List String := splitCharGo sep s.data []

/-- Python `str.startswith(pre)`. -/
def pyStartsWith (s pre : String) : Bool := pre.data.isPrefixOf s.data

/-- Drop the first `n` characters (`s[n:]`). -/
def strDrop (s : String) (n : Nat) : String := String.mk (s.data.drop n)

/-- `pat` occurs contiguously in the character list `s`. -/
def charsContain (pat : List Char) : List Char → Bool
  | [] => pat.isPrefixOf []
  | c :: rest => pat.isPrefixOf (c :: rest) || charsContain pat rest

/-- Substring test (`pat in s` / `re.search` on a literal): `pat` occurs
contiguously in `s`. -/
def strContains (s pat : String) : Bool := charsContain pat.data s.data

/-- Python `str.capitalize()`: first character upper-cased, rest lower-cased
(ASCII case mapping suffices for the data handled here). -/
def pyCapitalize (s : String) : String :=
  match s.data with
  | [] => ""
  | c :: cs => String.mk (c.toUpper :: cs.map Char.toLower)

/-- Python string comparison `<`: lexicographic on code points. -/
def charsLt : List Char → List Char → Bool
  | [], [] => false
  | [], _ :: _ => true
  | _ :: _, [] => false
  | a :: as, b :: bs =>
    if a.toNat < b.toNat then true
    else if b.toNat < a.toNat then false
    else charsLt as bs

/-- Insertion step for `pySorted` (insert `x` before the first `y` with
`x <= y`, i.e. with `not (y < x)`). -/
def insertSorted (x : String) : List String → List String
  | [] => [x]
  | y :: ys => if charsLt y.data x.data then y :: insertSorted x ys else x :: y :: ys

/-- Python `sorted` on a set of strings (ascending lexicographic order). -/
def pySorted (l : List String) : List String := l.foldr insertSorted []

/-- The two compiled `GENERIC_NAME_PATTERNS` applied with `pattern.match`:
optional surrounding whitespace around exactly one of `login`, `website`,
`account` (case-insensitive), or a whitespace-only string. -/
def matchesGenericPattern (s : String) : Bool :=
  pyStrip s == "" || ["login", "website", "account"].contains (pyLower (pyStrip s))

/-- Characters allowed in a URL scheme by `urllib.parse`. -/
def isSchemeChar (c : Char) : Bool :=
  c.isAlpha || c.isDigit || c == '+' || c == '-' || c == '.'

/-- Model of `urllib.parse.urlparse(url).netloc` (CPython `urlsplit`):
strip a leading valid scheme, then, if the remainder starts with `//`, the
netloc extends to the next `/`, `?` or `#`; unbalanced square brackets in
the netloc raise `ValueError`, modelled as `none`. -/
def pyUrlparseNetloc (url : String) : Option String :=
  let cs := url.data
  let rest :=
    match cs.findIdx? (fun c => c == ':') with
    | some i =>
      if 0 < i
          && (match cs.head? with | some c0 => c0.isAlpha | none => false)
          && (cs.take i).all isSchemeChar
      then cs.drop (i + 1) else cs
    | none => cs
  match rest with
  | '/' :: '/' :: r =>
    let n :=
      match r.findIdx? (fun c => c == '/' || c == '?' || c == '#') with
      | some j => r.take j
      | none => r
    if (n.contains '[' && !(n.contains ']')) || (n.contains ']' && !(n.contains '[')) then
      none
    else some (String.mk n)
  | _ => some ""

/-- `THREE_LABEL_TLDS`: TLDs that need 3 labels for the registrable domain. -/
def THREE_LABEL_TLDS : List String :=
  ["co.uk", "gov.uk", "ac.uk",
   "com.au", "com.br", "com.mx", "com.tr",
   "co.jp", "co.nz", "co.za"]

/-- `get_registrable_domain`. -/
def get_registrable_domain (domain : String) : String :=
  if domain = "" then ""
  else
    let parts := splitChar '.' domain
    if parts.length < 2 then domain
    else if 3 ≤ parts.length ∧
        String.intercalate "." (parts.drop (parts.length - 2)) ∈ THREE_LABEL_TLDS then
      String.intercalate "." (parts.drop (parts.length - 3))
    else String.intercalate "." (parts.drop (parts.length - 2))

/-- The per-URI part of the `parse_domains` loop body: extract and normalize
the host of one `uris` entry.  `none` covers every `continue` case: missing
or empty `uri`, a `urlparse` failure, an empty host, and a host that
normalizes to the empty string. -/
def uri_host_domain (uri0 : Option String) : Option String :=
  match uri0 with
  | none => none
  | some uri =>
    if uri = "" then none
    else
      let host0 := if strContains uri "://" then pyUrlparseNetloc uri else some uri
      match host0 with
      | none => none
      | some host =>
        if host = "" then none
        else
          let domain := pyStrip (pyLower host)
          let domain := if pyStartsWith domain "www." then strDrop domain 4 else domain
          if domain = "" then none else some domain

/-- `item.get("login") or {}` then `login.get("uris") or []`. -/
def uris_of (item : Item) : List UriEntry :=
  ((item.login.getD { uris := none }).uris).getD []

/-- Accumulating loop of `parse_domains`, threading the growing `domains`
list (first-seen order, both `not in domains` membership guards kept). -/
def parse_domains_go : List UriEntry → List String → List String
  | [], acc => acc
  | u :: us, acc =>
    match uri_host_domain u.uri with
    | none => parse_domains_go us acc
    | some domain =>
      if domain ∈ acc then parse_domains_go us acc
      else
        let registrable := get_registrable_domain domain
        if registrable ≠ "" ∧ registrable ∉ acc then
          parse_domains_go us (acc ++ [registrable])
        else parse_domains_go us acc

/-- `parse_domains`. -/
def parse_domains (item : Item) : List String :=
  parse_domains_go (uris_of item) []

/-- `domain_score`: `(not has_subdomain, len(domain), domain)`. -/
def domain_score (domain : String) : Bool × Nat × String :=
  let parts := splitChar '.' domain
  (!(decide (parts.length > 2)), domain.length, domain)

/-- Python tuple `<` on `(bool, int, str)` (`False < True`, strings by
code points). -/
def tupleLt (x y : Bool × Nat × String) : Bool :=
  if x.1 = y.1 then
    if x.2.1 = y.2.1 then charsLt x.2.2.data y.2.2.data
    else decide (x.2.1 < y.2.1)
  else decide (x.1 = false)

/-- Python `min(l, key=f)` on a non-empty list `b :: l`: scan left to right,
replacing the best element only on a strictly smaller key. -/
def py_min (f : String → Bool × Nat × String) (b : String) (l : List String) : String :=
  l.foldl (fun best d => if tupleLt (f d) (f best) then d else best) b

/-- `suggest_item_name`. -/
def suggest_item_name (item : Item) (domains : List String) : String :=
  let current_name := pyStrip (item.name.getD "")
  if current_name ≠ "" ∧ matchesGenericPattern current_name = false then current_name
  else
    match domains with
    | d :: ds =>
      let best_domain := py_min domain_score d ds
      let registrable := get_registrable_domain best_domain
      if registrable ≠ "" ∧ registrable ≠ best_domain then pyCapitalize registrable
      else pyCapitalize best_domain
    | [] =>
      if current_name ≠ "" ∧ matchesGenericPattern current_name = false then current_name
      else "Website"

/-- `CATEGORY_RULES`: each regex is an alternation of literals (with `\.`
denoting a literal dot), modelled as the list of those literals. -/
def CATEGORY_RULES : List (List String × String × List String) :=
  [(["paypal", "stripe", "wise", "revolut", "americanexpress", "chase", "barclays",
     "hsbc", "capitalone", "bofa", "coinbase", "kraken", "binance", "ftx", "monzo"],
    "Finance", ["finance"]),
   (["facebook", "instagram", "twitter", "x.com", "tiktok", "snapchat", "reddit",
     "discord", "slack"],
    "Social", ["social"]),
   (["github", "gitlab", "bitbucket", "docker", "heroku", "vercel", "netlify",
     "sentry", "linear", "atlassian"],
    "Developer", ["dev"]),
   (["aws.amazon", "azure", "microsoftonline", "gcp", "cloud.google", "cloudflare",
     "digitalocean", "linode", "vultr"],
    "Cloud", ["cloud"]),
   (["gmail", "protonmail", "fastmail", "outlook", "live.com", "yahoo"],
    "Email", ["email"]),
   (["amazon", "ebay", "aliexpress", "walmart", "target", "bestbuy", "newegg", "etsy"],
    "Shopping", ["shopping"]),
   (["gov.", ".gov", "hmrc", "irs", "uscis", "ssa.gov", "dvla", "uscourts"],
    "Government/Utilities", ["gov"]),
   (["airbnb", "booking", "expedia", "uber", "lyft", "delta", "united", "aa.com",
     "ryanair", "easyjet"],
    "Travel", ["travel"]),
   (["yubico", "duo", "authy", "1password", "lastpass", "bitwarden.com"],
    "Security", ["security"])]

/-- `re.search(pattern, domain, re.I)` for an alternation of (lower-case)
literals: some literal occurs in the lower-cased domain. -/
def ruleMatches (lits : List String) (domain : String) : Bool :=
  lits.any (fun l => strContains (pyLower domain) l)

/-- Inner loop of `categorize_item`: first matching rule in rule order. -/
def scan_rules : List (List String × String × List String) → String → Option (String × List String)
  | [], _ => none
  | r :: rs, d => if ruleMatches r.1 d then some (r.2.1, r.2.2) else scan_rules rs d

/-- `categorize_item`: domain-major, rule-minor scan, returning on the first
match (so the returned tag set is exactly the matched rule's), default
`("General", {"general"})`. -/
def categorize_item : List String → String × List String
  | [] => ("General", ["general"])
  | d :: ds =>
    match scan_rules CATEGORY_RULES d with
    | some ct => ct
    | none => categorize_item ds

/-- `enhance_notes` (the `Processed:` timestamp is the threaded `now`). -/
def enhance_notes (item : Item) (domains : List String) (category : String)
    (tags : List String) (now : String) : String :=
  let current_notes := pyStrip (item.notes.getD "")
  let metadata_lines :=
    (if domains ≠ [] then ["Domains: " ++ String.intercalate ", " domains] else [])
    ++ (if category ≠ "" then ["Category: " ++ category] else [])
    ++ (if tags ≠ [] then ["Tags: " ++ String.intercalate ", " (pySorted tags)] else [])
    ++ ["Processed: " ++ now]
  let metadata_header := String.intercalate "\n" metadata_lines
  if current_notes ≠ "" then metadata_header ++ "\n\n" ++ current_notes
  else metadata_header

/-- `find_or_create_folder`: returns `(id, updated list, updated supply)`. -/
def find_or_create_folder (folders : List Folder) (name : String) (nextId : Nat)
    (now : String) : String × List Folder × Nat :=
  match folders.find? (fun f => decide (f.name = some name)) with
  | some folder => (folder.id, folders, nextId)
  | none =>
    let folder_id := gen_id nextId
    (folder_id, folders ++ [{ id := folder_id, name := some name, revisionDate := now }],
     nextId + 1)

/-- `find_or_create_collection` (same algorithm over the collection list). -/
def find_or_create_collection (collections : List Folder) (name : String) (nextId : Nat)
    (now : String) : String × List Folder × Nat :=
  match collections.find? (fun f => decide (f.name = some name)) with
  | some collection => (collection.id, collections, nextId)
  | none =>
    let collection_id := gen_id nextId
    (collection_id,
     collections ++ [{ id := collection_id, name := some name, revisionDate := now }],
     nextId + 1)

/-- Mutation of the first field named `labels` (`labels_field["value"] = v`). -/
def set_labels_value : List Field → String → List Field
  | [], _ => []
  | f :: fs, v =>
    if f.name = some "labels" then { f with value := v } :: fs
    else f :: set_labels_value fs v

/-- `organize_item` (rule-based path; the item copy is a value, so the
`deepcopy` is the identity).  The stages mirror the source blocks in order:
name suggestion, `labels` field, notes, folder assignment, collection
assignment; where the source nests a feature-flag `if` around a value
check, the two conditions are flattened into one conjunction. -/
def organize_item (item : Item) (st : OrgState) (config : OrganizerConfig)
    (is_org_vault : Bool) (now : String) : Item × OrgState :=
  let domains := parse_domains item
  if domains = [] then (item, st)
  else
    let ct := categorize_item domains
    let organized1 :=
      if config.suggest_names = true ∧ some (suggest_item_name item domains) ≠ item.name
      then { item with name := some (suggest_item_name item domains) } else item
    let organized2 :=
      if config.add_tags = true ∧ ct.2 ≠ [] then
        let fields0 := organized1.fields.getD []
        let joined := String.intercalate ", " (pySorted ct.2)
        let fields1 :=
          if fields0.any (fun f => decide (f.name = some "labels")) then
            set_labels_value fields0 joined
          else fields0 ++ [{ name := some "labels", value := joined, type := 0 }]
        { organized1 with fields := some fields1 }
      else organized1
    let organized3 :=
      if config.add_metadata = true then
        { organized2 with notes := some (enhance_notes item domains ct.1 ct.2 now) }
      else organized2
    let step4 :=
      if config.create_folders = true ∧ is_org_vault = false then
        let r := find_or_create_folder st.folders ct.1 st.nextId now
        ({ organized3 with folderId := some r.1 },
         { st with folders := r.2.1, nextId := r.2.2 })
      else (organized3, st)
    let step5 :=
      if is_org_vault = true ∧ config.create_folders = true then
        let r := find_or_create_collection step4.2.collections ct.1 step4.2.nextId now
        ({ step4.1 with collectionIds := some [r.1] },
         { step4.2 with collections := r.2.1, nextId := r.2.2 })
      else step4
    step5

/-- The `for i, item in enumerate(items)` loop with its per-item
`try/except`: `step` returns the replacement item (`some`) or signals a
failure (`none`, keeping the original item at its index) together with the
updated shared state (which the `try` body may already have touched). -/
def organize_items_step (step : Item → OrgState → Option Item × OrgState) :
    List Item → OrgState → List Item × OrgState
  | [], st => ([], st)
  | item :: rest, st =>
    let r := step item st
    let rr := organize_items_step step rest r.2
    ((r.1.getD item) :: rr.1, rr.2)

/-- The concrete per-item step: the embedded `organize_item` is total, so
the `except` branch is unreachable and the step always returns `some`. -/
def run_step (config : OrganizerConfig) (is_org_vault : Bool) (now : String) :
    Item → OrgState → Option Item × OrgState :=
  fun item st =>
    let r := organize_item item st config is_org_vault now
    (some r.1, r.2)

/-- The rule-based item loop of `organize_bitwarden_export`. -/
def organize_items (items : List Item) (st : OrgState) (config : OrganizerConfig)
    (is_org_vault : Bool) (now : String) : List Item × OrgState :=
  organize_items_step (run_step config is_org_vault now) items st

/-- `organize_bitwarden_export` (rule-based path; `seed` starts the fresh-id
supply, standing in for the global uniqueness of `uuid4`). -/
def organize_bitwarden_export (data : BwData) (config : OrganizerConfig)
    (now : String) (seed : Nat) : Except String Document :=
  match data with
  | .nonDict => .error "Input data must be a dictionary"
  | .dict d =>
    let folders := d.folders.getD []
    let collections := d.collections.getD []
    let items := d.items.getD []
    if items = [] then .ok d
    else
      let is_org_vault := d.collections.isSome
      let r := organize_items items ⟨folders, collections, seed⟩ config is_org_vault now
      .ok { d with folders := some r.2.folders, collections := some r.2.collections,
                   items := some r.1 }

/-- Category computed for an item by the rule-based pipeline. -/
def catName (item : Item) : String := (categorize_item (parse_domains item)).1

/-- Tags computed for an item by the rule-based pipeline. -/
def catTags (item : Item) : List String := (categorize_item (parse_domains item)).2

/-- The joined `labels` value written for an item. -/
def joined_tags (item : Item) : String := String.intercalate ", " (pySorted (catTags item))

/-- First entry of a folder/collection list with the given name. -/
def findName (l : List Folder) (n : String) : Option Folder :=
  l.find? (fun f => decide (f.name = some n))

/-- First field named `labels`. -/
def firstLabels (fs : List Field) : Option Field :=
  fs.find? (fun f => decide (f.name = some "labels"))

/-- Default configuration (`OrganizerConfig()`). -/
def defaultConfig : OrganizerConfig := {}

/-- An item with no keys set. -/
def emptyItem : Item := ⟨none, none, none, none, none, none⟩


/-- Unwrap a successful run (`organize_bitwarden_export` never fails on a
mapping, so the error leg is irrelevant for the documents below). -/
def orgOut (data : BwData) (config : OrganizerConfig) (now : String) (seed : Nat) : Document :=
  match organize_bitwarden_export data config now seed with
  | .ok o => o
  | .error _ => ⟨none, none, none⟩

/-- Item of the end-to-end examples: generic name, one GitHub URI. -/
def ghItem : Item :=
  ⟨some "login", none, some ⟨some [⟨some "https://github.com"⟩]⟩, none, none, none⟩

/-- Item whose current name is exactly `login`, with no URIs. -/
def loginItem : Item := ⟨some "login", none, none, none, none, none⟩

/-- Item with the three URIs of the domain-normalization examples. -/
def c8item : Item :=
  ⟨none, none,
   some ⟨some [⟨some "https://WWW.EXAMPLE.COM/path"⟩, ⟨some "api.service.co.uk"⟩,
               ⟨some "test.org"⟩]⟩,
   none, none, none⟩

/-- Item exercising the skip and de-duplication paths of `parse_domains`:
a null URI, an empty URI, and two spellings of the same domain. -/
def c8item2 : Item :=
  ⟨none, none,
   some ⟨some [⟨none⟩, ⟨some ""⟩, ⟨some "https://example.com/a"⟩,
               ⟨some "www.EXAMPLE.com"⟩]⟩,
   none, none, none⟩

/-- Item whose notes carry leading whitespace. -/
def padItem : Item :=
  ⟨some "x", some "  padded", some ⟨some [⟨some "https://github.com"⟩]⟩, none, none, none⟩

/-- Shared state seen by the item loop just before processing index `i`. -/
def items_state_after (step : Item → OrgState → Option Item × OrgState)
    (l : List Item) (st : OrgState) (i : Nat) : OrgState :=
  (organize_items_step step (l.take i) st).2

/-- Stability profile of an already-organized item with respect to a
collection list: either it has no domains (and is skipped), or (when folder
creation is on) its category resolves by name to a collection whose id it
already references, and (when tag-writing is on) the first `labels` field
of its field list already holds the joined tag value. -/
def StableProfile (cs : List Folder) (cfg : OrganizerConfig) (item1 : Item) : Prop :=
  parse_domains item1 = [] ∨
  ((cfg.create_folders = true → ∃ c, findName cs (catName item1) = some c ∧
      item1.collectionIds = some [c.id]) ∧
   (cfg.add_tags = true → ∃ f0, firstLabels (item1.fields.getD []) = some f0 ∧
      f0.value = joined_tags item1))

-- ------------------------------------------------------------------
-- Rule-scanning lemmas
-- ------------------------------------------------------------------


/-- The inner rule loop returns the payload of the first rule, in rule
order, whose pattern matches the domain. -/
theorem scan_rules_eq_find (rules : List (List String × String × List String)) (d : String) :
    scan_rules rules d
      = (rules.find? (fun r => ruleMatches r.1 d)).map (fun r => (r.2.1, r.2.2)) := by
  induction rules with
  | nil => rfl
  | cons r rs ih =>
    by_cases h : ruleMatches r.1 d
    · simp [scan_rules, List.find?_cons, h]
    · simp [scan_rules, List.find?_cons, h, ih]

/-- Every rule of `CATEGORY_RULES` has a non-empty category and tag set. -/
theorem rules_payload_ok : ∀ r ∈ CATEGORY_RULES, r.2.1 ≠ "" ∧ r.2.2 ≠ [] := by decide

theorem scan_rules_ok {d : String} {ct : String × List String}
    (h : scan_rules CATEGORY_RULES d = some ct) : ct.1 ≠ "" ∧ ct.2 ≠ [] := by
  rw [scan_rules_eq_find] at h
  cases hf : CATEGORY_RULES.find? (fun r => ruleMatches r.1 d) with
  | none => rw [hf] at h; exact absurd h (by simp)
  | some r =>
    rw [hf] at h
    simp only [Option.map_some'] at h
    have h2 : (r.2.1, r.2.2) = ct := Option.some.inj h
    rw [← h2]
    exact rules_payload_ok r (List.mem_of_find?_eq_some hf)

/-- `categorize_item` never returns an empty category or an empty tag set. -/
theorem categorize_item_ok (ds : List String) :
    (categorize_item ds).1 ≠ "" ∧ (categorize_item ds).2 ≠ [] := by
  induction ds with
  | nil => exact ⟨by decide, by decide⟩
  | cons d ds ih =>
    rw [categorize_item]
    cases hs : scan_rules CATEGORY_RULES d with
    | none => simpa using ih
    | some ct => simpa using scan_rules_ok hs

-- ------------------------------------------------------------------
-- Python tuple-order lemmas (for the name-suggestion minimum)
-- ------------------------------------------------------------------

theorem charsLt_irrefl (l : List Char) : charsLt l l = false := by
  induction l with
  | nil => rfl
  | cons c cs ih => simp [charsLt, ih]

theorem charsLt_trans {a b c : List Char} (h1 : charsLt a b = true)
    (h2 : charsLt b c = true) : charsLt a c = true := by
  induction a generalizing b c with
  | nil =>
    cases c with
    | nil => cases b <;> simp_all [charsLt]
    | cons x xs => simp [charsLt]
  | cons x xs ih =>
    cases b with
    | nil => simp [charsLt] at h1
    | cons y ys =>
      cases c with
      | nil => simp [charsLt] at h2
      | cons z zs =>
        simp only [charsLt] at h1 h2 ⊢
        by_cases hxy : x.toNat < y.toNat
        · by_cases hyz : y.toNat < z.toNat
          · rw [if_pos (by omega)]
          · by_cases hzy : z.toNat < y.toNat
            · rw [if_neg hyz, if_pos hzy] at h2; exact absurd h2 (by simp)
            · rw [if_pos (by omega)]
        · by_cases hyx : y.toNat < x.toNat
          · rw [if_neg hxy, if_pos hyx] at h1; exact absurd h1 (by simp)
          · rw [if_neg hxy, if_neg hyx] at h1
            by_cases hyz : y.toNat < z.toNat
            · rw [if_pos (by omega)]
            · by_cases hzy : z.toNat < y.toNat
              · rw [if_neg hyz, if_pos hzy] at h2; exact absurd h2 (by simp)
              · rw [if_neg hyz, if_neg hzy] at h2
                rw [if_neg (by omega), if_neg (by omega)]
                exact ih h1 h2

theorem charsLt_conn {a b : List Char} (h : charsLt a b = false) (hne : a ≠ b) :
    charsLt b a = true := by
  induction a generalizing b with
  | nil =>
    cases b with
    | nil => exact absurd rfl hne
    | cons y ys => simp [charsLt] at h
  | cons x xs ih =>
    cases b with
    | nil => simp [charsLt]
    | cons y ys =>
      simp only [charsLt] at h ⊢
      by_cases hxy : x.toNat < y.toNat
      · rw [if_pos hxy] at h; exact absurd h (by simp)
      · by_cases hyx : y.toNat < x.toNat
        · rw [if_pos hyx]
        · rw [if_neg hxy, if_neg hyx] at h
          have hx : x = y := Char.ext (UInt32.ext (show x.toNat = y.toNat by omega))
          rw [if_neg hyx, if_neg hxy]
          apply ih h
          intro hc
          exact hne (by rw [hx, hc])

theorem tupleLt_irrefl (x : Bool × Nat × String) : tupleLt x x = false := by
  simp [tupleLt, charsLt_irrefl]

theorem tupleLt_trans {x y z : Bool × Nat × String}
    (h1 : tupleLt x y = true) (h2 : tupleLt y z = true) : tupleLt x z = true := by
  obtain ⟨b1, n1, s1⟩ := x
  obtain ⟨b2, n2, s2⟩ := y
  obtain ⟨b3, n3, s3⟩ := z
  simp only [tupleLt] at h1 h2 ⊢
  by_cases e1 : b1 = b2
  · rw [if_pos e1] at h1
    by_cases e2 : b2 = b3
    · rw [if_pos e2] at h2
      rw [if_pos (e1.trans e2)]
      by_cases m1 : n1 = n2
      · rw [if_pos m1] at h1
        by_cases m2 : n2 = n3
        · rw [if_pos m2] at h2
          rw [if_pos (m1.trans m2)]
          exact charsLt_trans h1 h2
        · rw [if_neg m2, decide_eq_true_eq] at h2
          rw [if_neg (by omega)]
          simp only [decide_eq_true_eq]
          omega
      · rw [if_neg m1, decide_eq_true_eq] at h1
        by_cases m2 : n2 = n3
        · rw [if_pos m2] at h2
          rw [if_neg (by omega)]
          simp only [decide_eq_true_eq]
          omega
        · rw [if_neg m2, decide_eq_true_eq] at h2
          rw [if_neg (by omega)]
          simp only [decide_eq_true_eq]
          omega
    · rw [if_neg e2, decide_eq_true_eq] at h2
      rw [if_neg (by rw [e1]; exact e2), decide_eq_true_eq]
      rw [e1]
      exact h2
  · rw [if_neg e1, decide_eq_true_eq] at h1
    by_cases e2 : b2 = b3
    · rw [if_neg (by rw [← e2]; exact e1), decide_eq_true_eq]
      exact h1
    · rw [if_neg e2, decide_eq_true_eq] at h2
      exact absurd (h1.trans h2.symm) e1

theorem tupleLt_flip {x y : Bool × Nat × String}
    (h : tupleLt x y = false) (hne : x ≠ y) : tupleLt y x = true := by
  obtain ⟨b1, n1, s1⟩ := x
  obtain ⟨b2, n2, s2⟩ := y
  simp only [tupleLt] at h ⊢
  by_cases e : b1 = b2
  · rw [if_pos e] at h
    rw [if_pos e.symm]
    by_cases m : n1 = n2
    · rw [if_pos m] at h
      rw [if_pos m.symm]
      apply charsLt_conn h
      intro hc
      apply hne
      rw [e, m, String.ext hc]
    · rw [if_neg m, decide_eq_false_iff_not] at h
      rw [if_neg (Ne.symm m), decide_eq_true_eq]
      omega
  · rw [if_neg e, decide_eq_false_iff_not] at h
    rw [if_neg (Ne.symm e), decide_eq_true_eq]
    cases b1 <;> cases b2 <;> simp_all

/-- `py_min` computes a minimum of `b :: l` under the Python tuple order on
`domain_score` keys (ties keep the earliest element, as `min` does). -/
theorem py_min_spec (b : String) (l : List String) :
    py_min domain_score b l ∈ b :: l ∧
      ∀ x ∈ b :: l,
        tupleLt (domain_score x) (domain_score (py_min domain_score b l)) = false := by
  induction l generalizing b with
  | nil =>
    refine ⟨List.mem_cons_self b [], ?_⟩
    intro x hx
    rcases List.mem_cons.mp hx with rfl | hx2
    · exact tupleLt_irrefl _
    · exact absurd hx2 (List.not_mem_nil x)
  | cons d l ih =>
    by_cases hdb : tupleLt (domain_score d) (domain_score b) = true
    · have hpm : py_min domain_score b (d :: l) = py_min domain_score d l := by
        simp [py_min, hdb]
      rw [hpm]
      obtain ⟨ihm, ihmin⟩ := ih d
      refine ⟨List.mem_cons_of_mem b ihm, ?_⟩
      intro x hx
      rcases List.mem_cons.mp hx with rfl | hx2
      · by_contra hc
        rw [Bool.not_eq_false] at hc
        have h3 := tupleLt_trans hdb hc
        have h4 := ihmin d (List.mem_cons_self d l)
        rw [h3] at h4
        simp at h4
      · exact ihmin x hx2
    · rw [Bool.not_eq_true] at hdb
      have hpm : py_min domain_score b (d :: l) = py_min domain_score b l := by
        simp [py_min, hdb]
      rw [hpm]
      obtain ⟨ihm, ihmin⟩ := ih b
      constructor
      · rcases List.mem_cons.mp ihm with he | hx2
        · rw [he]; exact List.mem_cons_self b (d :: l)
        · exact List.mem_cons_of_mem b (List.mem_cons_of_mem d hx2)
      · intro x hx
        rcases List.mem_cons.mp hx with rfl | hx2
        · exact ihmin x (List.mem_cons_self x l)
        rcases List.mem_cons.mp hx2 with rfl | hx3
        · by_contra hc
          rw [Bool.not_eq_false] at hc
          have hfb := ihmin b (List.mem_cons_self b l)
          by_cases he : domain_score x = domain_score b
          · rw [he] at hc
            rw [hc] at hfb
            simp at hfb
          · have h5 := tupleLt_flip hdb he
            have h3 := tupleLt_trans h5 hc
            rw [h3] at hfb
            simp at hfb
        · exact ihmin x (List.mem_cons_of_mem b hx3)

-- ------------------------------------------------------------------
-- C1: name suggestion
-- ------------------------------------------------------------------

/-- C1 (counterexample): for name `login` and domains
`["example.com", "api.service.org"]` the code returns `Service.org` (it
prefers the domain with a subdomain), not `Example.com` as claimed. -/
theorem c1_counterexample :
    suggest_item_name loginItem ["example.com", "api.service.org"] = "Service.org" ∧
      ("Service.org" : String) ≠ "Example.com" := by
  refine ⟨by decide, by decide⟩

/-- C1 (amended): for a generic (or empty) current name and a non-empty
domain list, `suggest_item_name` picks a minimum under the ordering: domain
WITH a subdomain first (`not has_subdomain` ascending), then shorter, then
lexicographically smaller; it returns the registrable form capitalized when
that differs from the chosen domain, else the chosen domain capitalized.
In particular the example above yields `Service.org`. -/
theorem c1_suggest_name_amended (item : Item) (d : String) (ds : List String)
    (hgen : matchesGenericPattern (pyStrip (item.name.getD "")) = true) :
    ∃ best, best ∈ d :: ds ∧
      (∀ x ∈ d :: ds, tupleLt (domain_score x) (domain_score best) = false) ∧
      suggest_item_name item (d :: ds) =
        (if get_registrable_domain best ≠ "" ∧ get_registrable_domain best ≠ best
         then pyCapitalize (get_registrable_domain best) else pyCapitalize best) := by
  refine ⟨py_min domain_score d ds, (py_min_spec d ds).1, (py_min_spec d ds).2, ?_⟩
  have hcond : ¬(pyStrip (item.name.getD "") ≠ "" ∧
      matchesGenericPattern (pyStrip (item.name.getD "")) = false) := by
    intro hcon
    rw [hgen] at hcon
    exact absurd hcon.2 (by simp)
  simp only [suggest_item_name, if_neg hcond]

/-- C1 witness at the concrete example input. -/
theorem c1_suggest_name_witness :
    matchesGenericPattern (pyStrip (loginItem.name.getD "")) = true ∧
    ∃ best, best ∈ ["example.com", "api.service.org"] ∧
      (∀ x ∈ ["example.com", "api.service.org"],
        tupleLt (domain_score x) (domain_score best) = false) ∧
      suggest_item_name loginItem ["example.com", "api.service.org"] =
        (if get_registrable_domain best ≠ "" ∧ get_registrable_domain best ≠ best
         then pyCapitalize (get_registrable_domain best) else pyCapitalize best) :=
  ⟨by decide, c1_suggest_name_amended loginItem "example.com" ["api.service.org"] (by decide)⟩

-- ------------------------------------------------------------------
-- C2: input validation
-- ------------------------------------------------------------------

/-- C2 (counterexample): a mapping without an `items` key does NOT raise;
the document is returned unchanged. -/
theorem c2_counterexample :
    organize_bitwarden_export (.dict ⟨none, none, none⟩) defaultConfig "T" 0
      = .ok ⟨none, none, none⟩ := by
  rfl

/-- C2 (amended): only a non-mapping input raises, before any processing;
a mapping whose `items` key is missing or bound to an empty sequence is
returned unchanged. -/
theorem c2_malformed_input_amended :
    (∀ (config : OrganizerConfig) (now : String) (seed : Nat),
        organize_bitwarden_export .nonDict config now seed
          = .error "Input data must be a dictionary") ∧
    (∀ (d : Document) (config : OrganizerConfig) (now : String) (seed : Nat),
        d.items.getD [] = [] →
        organize_bitwarden_export (.dict d) config now seed = .ok d) := by
  constructor
  · intro config now seed
    rfl
  · intro d config now seed h
    simp [organize_bitwarden_export, h]

/-- C2 witness: the two legs at concrete inputs. -/
theorem c2_malformed_input_witness :
    organize_bitwarden_export .nonDict defaultConfig "T" 0
        = .error "Input data must be a dictionary" ∧
    (⟨some [], none, none⟩ : Document).items.getD [] = [] ∧
    organize_bitwarden_export (.dict ⟨some [], none, none⟩) defaultConfig "T" 0
        = .ok ⟨some [], none, none⟩ :=
  ⟨c2_malformed_input_amended.1 defaultConfig "T" 0, by decide,
   c2_malformed_input_amended.2 ⟨some [], none, none⟩ defaultConfig "T" 0 (by decide)⟩

-- ------------------------------------------------------------------
-- C5: items with no domains are returned untouched
-- ------------------------------------------------------------------

/-- C5: when the parsed domain list is empty, `organize_item` returns the
copy of the item and the shared state completely unchanged, for every
configuration and vault type. -/
theorem c5_empty_domains_frame (item : Item) (st : OrgState) (config : OrganizerConfig)
    (org : Bool) (now : String) (h : parse_domains item = []) :
    organize_item item st config org now = (item, st) := by
  simp [organize_item, h]

/-- C5 witness: an item with no `login` key. -/
theorem c5_empty_domains_frame_witness :
    parse_domains loginItem = [] ∧
    organize_item loginItem ⟨[], [], 0⟩ defaultConfig false "T" = (loginItem, ⟨[], [], 0⟩) :=
  ⟨by decide, c5_empty_domains_frame loginItem ⟨[], [], 0⟩ defaultConfig false "T" (by decide)⟩

-- ------------------------------------------------------------------
-- C9: categorization
-- ------------------------------------------------------------------

/-- C9: `categorize_item` scans domains in order and the fixed rule list in
rule order, returning the first matching rule's payload immediately, with
default `("General", {"general"})`; `["github.com"]` is `Developer` with
tag `dev`, `["random-site.io"]` falls through to the default. -/
theorem c9_categorize_first_match :
    categorize_item [] = ("General", ["general"]) ∧
    (∀ (d : String) (ds : List String),
        categorize_item (d :: ds)
          = ((CATEGORY_RULES.find? (fun r => ruleMatches r.1 d)).map
              (fun r => (r.2.1, r.2.2))).getD (categorize_item ds)) ∧
    categorize_item ["github.com"] = ("Developer", ["dev"]) ∧
    "dev" ∈ (categorize_item ["github.com"]).2 ∧
    categorize_item ["random-site.io"] = ("General", ["general"]) := by
  refine ⟨rfl, ?_, by decide, by decide, by decide⟩
  intro d ds
  rw [categorize_item, scan_rules_eq_find]
  cases CATEGORY_RULES.find? (fun r => ruleMatches r.1 d) with
  | none => simp
  | some r => simp

-- ------------------------------------------------------------------
-- C8: domain parsing
-- ------------------------------------------------------------------

theorem parse_domains_go_nodup (us : List UriEntry) (acc : List String)
    (h : acc.Nodup) : (parse_domains_go us acc).Nodup := by
  induction us generalizing acc with
  | nil => simpa [parse_domains_go] using h
  | cons u us ih =>
    cases hu : uri_host_domain u.uri with
    | none => rw [parse_domains_go, hu]; exact ih acc h
    | some domain =>
      rw [parse_domains_go, hu]
      dsimp only
      by_cases hm : domain ∈ acc
      · rw [if_pos hm]; exact ih acc h
      · rw [if_neg hm]
        by_cases hr : get_registrable_domain domain ≠ "" ∧
            get_registrable_domain domain ∉ acc
        · rw [if_pos hr]
          apply ih
          simp [List.nodup_append, h, hr.2]
        · rw [if_neg hr]; exact ih acc h

theorem parse_domains_go_mem {d : String} (us : List UriEntry) (acc : List String)
    (h : d ∈ parse_domains_go us acc) :
    d ∈ acc ∨ ∃ u ∈ us, ∃ dom, uri_host_domain u.uri = some dom ∧
      d = get_registrable_domain dom := by
  induction us generalizing acc with
  | nil =>
    rw [parse_domains_go] at h
    exact Or.inl h
  | cons u us ih =>
    have tailcase : d ∈ parse_domains_go us acc →
        d ∈ acc ∨ ∃ u2 ∈ u :: us, ∃ dom, uri_host_domain u2.uri = some dom ∧
          d = get_registrable_domain dom := by
      intro h2
      rcases ih acc h2 with h3 | ⟨u2, hu2, dom, hd1, hd2⟩
      · exact Or.inl h3
      · exact Or.inr ⟨u2, List.mem_cons_of_mem u hu2, dom, hd1, hd2⟩
    cases hu : uri_host_domain u.uri with
    | none =>
      rw [parse_domains_go, hu] at h
      exact tailcase h
    | some dom0 =>
      rw [parse_domains_go, hu] at h
      dsimp only at h
      by_cases hm : dom0 ∈ acc
      · rw [if_pos hm] at h
        exact tailcase h
      · rw [if_neg hm] at h
        by_cases hr : get_registrable_domain dom0 ≠ "" ∧
            get_registrable_domain dom0 ∉ acc
        · rw [if_pos hr] at h
          rcases ih _ h with h1 | ⟨u2, hu2, dom, hd1, hd2⟩
          · rcases List.mem_append.mp h1 with h2 | h2
            · exact Or.inl h2
            · have h3 : d = get_registrable_domain dom0 := by simpa using h2
              exact Or.inr ⟨u, List.mem_cons_self u us, dom0, hu, h3⟩
          · exact Or.inr ⟨u2, List.mem_cons_of_mem u hu2, dom, hd1, hd2⟩
        · rw [if_neg hr] at h
          exact tailcase h

/-- C8: `parse_domains` returns a duplicate-free list; every returned
domain is the registrable domain of the normalized host of one of the
item's URIs (null/empty/unparsable URIs are skipped); and the spec's
concrete normalization examples hold, including the skip/de-duplication
behavior. -/
theorem c8_parse_domains_correct :
    (∀ item : Item, (parse_domains item).Nodup) ∧
    (∀ (item : Item) (d : String), d ∈ parse_domains item →
        ∃ u ∈ uris_of item, ∃ dom, uri_host_domain u.uri = some dom ∧
          d = get_registrable_domain dom) ∧
    parse_domains c8item = ["example.com", "service.co.uk", "test.org"] ∧
    uri_host_domain (some "https://WWW.EXAMPLE.COM/path") = some "example.com" ∧
    get_registrable_domain "api.service.co.uk" = "service.co.uk" ∧
    get_registrable_domain "test.org" = "test.org" ∧
    parse_domains c8item2 = ["example.com"] := by
  refine ⟨?_, ?_, by decide, by decide, by decide, by decide, by decide⟩
  · intro item
    exact parse_domains_go_nodup _ _ List.nodup_nil
  · intro item d h
    rcases parse_domains_go_mem _ _ h with h1 | h2
    · exact absurd h1 (List.not_mem_nil d)
    · exact h2

/-- C8 witness: the membership characterization applied at a concrete
domain of the example item. -/
theorem c8_parse_domains_witness :
    "example.com" ∈ parse_domains c8item ∧
    ∃ u ∈ uris_of c8item, ∃ dom, uri_host_domain u.uri = some dom ∧
      "example.com" = get_registrable_domain dom :=
  ⟨by decide, c8_parse_domains_correct.2.1 c8item "example.com" (by decide)⟩

-- ------------------------------------------------------------------
-- C10 (counterexample): notes are appended stripped, not verbatim
-- ------------------------------------------------------------------

/-- C10 (counterexample): pre-existing notes `"  padded"` are appended with
their surrounding whitespace stripped, so the original note content is NOT
preserved verbatim beneath the header. -/
theorem c10_counterexample :
    ((organize_item padItem ⟨[], [], 0⟩ defaultConfig false "T").1).notes
        = some "Domains: github.com\nCategory: Developer\nTags: dev\nProcessed: T\n\npadded" ∧
    ((organize_item padItem ⟨[], [], 0⟩ defaultConfig false "T").1).notes
        ≠ some ("Domains: github.com\nCategory: Developer\nTags: dev\nProcessed: T"
            ++ "\n\n" ++ "  padded") := by
  refine ⟨by decide, by decide⟩

-- ------------------------------------------------------------------
-- Per-item lemmas about organize_item
-- ------------------------------------------------------------------

theorem find_or_create_folder_found {fs : List Folder} {n : String} {c : Folder}
    (h : findName fs n = some c) (nid : Nat) (now : String) :
    find_or_create_folder fs n nid now = (c.id, fs, nid) := by
  rw [find_or_create_folder]
  rw [findName] at h
  rw [h]

theorem find_or_create_folder_new {fs : List Folder} {n : String}
    (h : findName fs n = none) (nid : Nat) (now : String) :
    find_or_create_folder fs n nid now
      = (gen_id nid, fs ++ [⟨gen_id nid, some n, now⟩], nid + 1) := by
  rw [find_or_create_folder]
  rw [findName] at h
  rw [h]

theorem find_or_create_collection_found {cs : List Folder} {n : String} {c : Folder}
    (h : findName cs n = some c) (nid : Nat) (now : String) :
    find_or_create_collection cs n nid now = (c.id, cs, nid) := by
  rw [find_or_create_collection]
  rw [findName] at h
  rw [h]

theorem find_or_create_collection_new {cs : List Folder} {n : String}
    (h : findName cs n = none) (nid : Nat) (now : String) :
    find_or_create_collection cs n nid now
      = (gen_id nid, cs ++ [⟨gen_id nid, some n, now⟩], nid + 1) := by
  rw [find_or_create_collection]
  rw [findName] at h
  rw [h]

/-- `organize_item` never touches the `login` sub-object. -/
theorem organize_item_login (item : Item) (st : OrgState) (cfg : OrganizerConfig)
    (org : Bool) (now : String) :
    ((organize_item item st cfg org now).1).login = item.login := by
  by_cases hd : parse_domains item = []
  · simp [organize_item, hd]
  · simp only [organize_item, if_neg hd]
    split <;> split <;> split <;> split <;> split <;> rfl

theorem parse_domains_congr {item1 item2 : Item} (h : item1.login = item2.login) :
    parse_domains item1 = parse_domains item2 := by
  rw [parse_domains, parse_domains, uris_of, uris_of, h]

theorem catName_organize_item (item : Item) (st : OrgState) (cfg : OrganizerConfig)
    (org : Bool) (now : String) :
    catName ((organize_item item st cfg org now).1) = catName item := by
  rw [catName, catName, parse_domains_congr (organize_item_login item st cfg org now)]

theorem catTags_organize_item (item : Item) (st : OrgState) (cfg : OrganizerConfig)
    (org : Bool) (now : String) :
    catTags ((organize_item item st cfg org now).1) = catTags item := by
  rw [catTags, catTags, parse_domains_congr (organize_item_login item st cfg org now)]

/-- In an organization vault the folder list is never touched. -/
theorem organize_item_org_folders (item : Item) (st : OrgState) (cfg : OrganizerConfig)
    (now : String) :
    ((organize_item item st cfg true now).2).folders = st.folders := by
  by_cases hd : parse_domains item = []
  · simp [organize_item, hd]
  · simp only [organize_item, if_neg hd]
    split <;> split <;> split <;> split <;> split <;> simp_all

/-- In a personal vault the collection list is never touched. -/
theorem organize_item_personal_collections (item : Item) (st : OrgState)
    (cfg : OrganizerConfig) (now : String) :
    ((organize_item item st cfg false now).2).collections = st.collections := by
  by_cases hd : parse_domains item = []
  · simp [organize_item, hd]
  · simp only [organize_item, if_neg hd]
    split <;> split <;> split <;> split <;> split <;> simp_all

/-- In a personal vault the id supply and folder list of the state are the
ones produced by `find_or_create_folder` on the category (when enabled),
the item gets that folder id, and its collection reference is untouched. -/
theorem organize_item_personal_char (item : Item) (st : OrgState) (cfg : OrganizerConfig)
    (now : String) (hd : parse_domains item ≠ []) (hcf : cfg.create_folders = true) :
    ((organize_item item st cfg false now).1).folderId
        = some (find_or_create_folder st.folders (catName item) st.nextId now).1 ∧
    ((organize_item item st cfg false now).2).folders
        = (find_or_create_folder st.folders (catName item) st.nextId now).2.1 ∧
    ((organize_item item st cfg false now).1).collectionIds = item.collectionIds := by
  simp only [organize_item, if_neg hd, catName]
  rw [if_neg (by simp)]
  rw [if_pos (by simp [hcf])]
  split <;> split <;> split <;> simp_all

/-- In an organization vault the item gets a one-element collection list
from `find_or_create_collection` on the category (when enabled), and its
folder reference is untouched. -/
theorem organize_item_orgvault_char (item : Item) (st : OrgState) (cfg : OrganizerConfig)
    (now : String) (hd : parse_domains item ≠ []) (hcf : cfg.create_folders = true) :
    ((organize_item item st cfg true now).1).collectionIds
        = some [(find_or_create_collection st.collections (catName item) st.nextId now).1] ∧
    ((organize_item item st cfg true now).2).collections
        = (find_or_create_collection st.collections (catName item) st.nextId now).2.1 ∧
    ((organize_item item st cfg true now).2).nextId
        = (find_or_create_collection st.collections (catName item) st.nextId now).2.2 ∧
    ((organize_item item st cfg true now).1).folderId = item.folderId := by
  simp only [organize_item, if_neg hd, catName]
  rw [if_pos (by simp [hcf])]
  rw [if_neg (by simp)]
  split <;> split <;> split <;> simp_all

/-- Without folder creation the shared state is never touched. -/
theorem organize_item_no_create (item : Item) (st : OrgState) (cfg : OrganizerConfig)
    (org : Bool) (now : String) (hcf : cfg.create_folders = false) :
    (organize_item item st cfg org now).2 = st ∧
    ((organize_item item st cfg org now).1).folderId = item.folderId ∧
    ((organize_item item st cfg org now).1).collectionIds = item.collectionIds := by
  by_cases hd : parse_domains item = []
  · simp [organize_item, hd]
  · simp only [organize_item, if_neg hd]
    rw [if_neg (by simp [hcf]), if_neg (by simp [hcf])]
    split <;> split <;> split <;> simp_all

/-- `find_or_create_folder` returns the id of a folder with the requested
name that is present in the returned folder list. -/
theorem find_or_create_folder_spec (fs : List Folder) (n : String) (nid : Nat)
    (now : String) :
    ∃ f, f ∈ (find_or_create_folder fs n nid now).2.1 ∧ f.name = some n ∧
      f.id = (find_or_create_folder fs n nid now).1 := by
  cases hf : findName fs n with
  | some c =>
    rw [find_or_create_folder_found hf]
    rw [findName] at hf
    have hp := List.find?_some hf
    exact ⟨c, List.mem_of_find?_eq_some hf, of_decide_eq_true hp, rfl⟩
  | none =>
    rw [find_or_create_folder_new hf]
    exact ⟨⟨gen_id nid, some n, now⟩, by simp, rfl, rfl⟩

/-- Same for `find_or_create_collection`. -/
theorem find_or_create_collection_spec (cs : List Folder) (n : String) (nid : Nat)
    (now : String) :
    ∃ c, c ∈ (find_or_create_collection cs n nid now).2.1 ∧ c.name = some n ∧
      c.id = (find_or_create_collection cs n nid now).1 := by
  cases hf : findName cs n with
  | some c =>
    rw [find_or_create_collection_found hf]
    rw [findName] at hf
    have hp := List.find?_some hf
    exact ⟨c, List.mem_of_find?_eq_some hf, of_decide_eq_true hp, rfl⟩
  | none =>
    rw [find_or_create_collection_new hf]
    exact ⟨⟨gen_id nid, some n, now⟩, by simp, rfl, rfl⟩

-- ------------------------------------------------------------------
-- C6: folder/collection assignment exclusivity
-- ------------------------------------------------------------------

/-- C6: with folder creation enabled and a non-empty domain list, a
personal-vault run assigns `folderId` (to a folder named after the item's
category) and leaves `collectionIds` untouched, while an organization-vault
run assigns a one-element `collectionIds` (to a collection named after the
category) and leaves `folderId` untouched. -/
theorem c6_membership_exclusivity (item : Item) (st : OrgState) (cfg : OrganizerConfig)
    (now : String) (hcf : cfg.create_folders = true) (hd : parse_domains item ≠ []) :
    (∃ f, f ∈ ((organize_item item st cfg false now).2).folders ∧
      f.name = some (catName item) ∧
      ((organize_item item st cfg false now).1).folderId = some f.id) ∧
    ((organize_item item st cfg false now).1).collectionIds = item.collectionIds ∧
    (∃ c, c ∈ ((organize_item item st cfg true now).2).collections ∧
      c.name = some (catName item) ∧
      ((organize_item item st cfg true now).1).collectionIds = some [c.id]) ∧
    ((organize_item item st cfg true now).1).folderId = item.folderId := by
  obtain ⟨h1, h2, h3⟩ := organize_item_personal_char item st cfg now hd hcf
  obtain ⟨g1, g2, g4, g3⟩ := organize_item_orgvault_char item st cfg now hd hcf
  obtain ⟨f, hf1, hf2, hf3⟩ := find_or_create_folder_spec st.folders (catName item) st.nextId now
  obtain ⟨c, hc1, hc2, hc3⟩ :=
    find_or_create_collection_spec st.collections (catName item) st.nextId now
  refine ⟨⟨f, ?_, hf2, ?_⟩, h3, ⟨c, ?_, hc2, ?_⟩, g3⟩
  · rw [h2]; exact hf1
  · rw [h1, hf3]
  · rw [g2]; exact hc1
  · rw [g1, hc3]

/-- C6 witness at the concrete GitHub item. -/
theorem c6_membership_exclusivity_witness :
    defaultConfig.create_folders = true ∧ parse_domains ghItem ≠ [] ∧
    ((∃ f, f ∈ ((organize_item ghItem ⟨[], [], 0⟩ defaultConfig false "T").2).folders ∧
      f.name = some (catName ghItem) ∧
      ((organize_item ghItem ⟨[], [], 0⟩ defaultConfig false "T").1).folderId = some f.id) ∧
    ((organize_item ghItem ⟨[], [], 0⟩ defaultConfig false "T").1).collectionIds
        = ghItem.collectionIds ∧
    (∃ c, c ∈ ((organize_item ghItem ⟨[], [], 0⟩ defaultConfig true "T").2).collections ∧
      c.name = some (catName ghItem) ∧
      ((organize_item ghItem ⟨[], [], 0⟩ defaultConfig true "T").1).collectionIds
        = some [c.id]) ∧
    ((organize_item ghItem ⟨[], [], 0⟩ defaultConfig true "T").1).folderId
        = ghItem.folderId) :=
  ⟨rfl, by decide,
   c6_membership_exclusivity ghItem ⟨[], [], 0⟩ defaultConfig "T" rfl (by decide)⟩

-- ------------------------------------------------------------------
-- C4: folders/collections keys in the output
-- ------------------------------------------------------------------

/-- A personal-vault loop never touches the collection list. -/
theorem organize_items_step_personal_collections (cfg : OrganizerConfig) (now : String)
    (l : List Item) (st : OrgState) :
    ((organize_items_step (run_step cfg false now) l st).2).collections = st.collections := by
  induction l generalizing st with
  | nil => rfl
  | cons a l ih =>
    rw [organize_items_step]
    dsimp only
    rw [ih]
    exact organize_item_personal_collections a st cfg now

/-- C4: for a mapping with a non-empty `items` sequence the output document
always carries both a `folders` and a `collections` key bound to lists, so
`is_org_export` classifies every such output as an organization export; when
the input had no `collections` key the bound collection list is the empty
list created by the run. -/
theorem c4_keys_invariant (d : Document) (cfg : OrganizerConfig) (now : String)
    (seed : Nat) (its : List Item) (hit : d.items = some its) (hne : its ≠ []) :
    ∃ out, organize_bitwarden_export (.dict d) cfg now seed = .ok out ∧
      out.folders.isSome = true ∧ out.collections.isSome = true ∧
      is_org_export (.dict out) = true ∧
      (d.collections = none → out.collections = some []) := by
  have hne2 : ¬ d.items.getD [] = [] := by
    rw [hit]
    simpa using hne
  simp only [organize_bitwarden_export]
  rw [if_neg hne2]
  refine ⟨_, rfl, rfl, rfl, rfl, ?_⟩
  intro hcol
  simp only [hcol, Option.getD_none, Option.isSome_none]
  rw [organize_items]
  rw [organize_items_step_personal_collections]

/-- C4 witness: a personal vault document with one item and no
`collections` key. -/
theorem c4_keys_invariant_witness :
    (⟨some [], none, some [ghItem]⟩ : Document).items = some [ghItem] ∧
    ([ghItem] : List Item) ≠ [] ∧
    ∃ out, organize_bitwarden_export (.dict ⟨some [], none, some [ghItem]⟩)
          defaultConfig "T" 0 = .ok out ∧
      out.folders.isSome = true ∧ out.collections.isSome = true ∧
      is_org_export (.dict out) = true ∧
      ((⟨some [], none, some [ghItem]⟩ : Document).collections = none →
        out.collections = some []) :=
  ⟨rfl, by decide,
   c4_keys_invariant ⟨some [], none, some [ghItem]⟩ defaultConfig "T" 0 [ghItem] rfl
     (by decide)⟩

-- ------------------------------------------------------------------
-- C7: item count and order invariance
-- ------------------------------------------------------------------

/-- The item loop (for an arbitrary, possibly failing, per-item step)
produces exactly one output per input index: the step's replacement item
when it succeeds, the original item when it fails. -/
theorem organize_items_step_range (step : Item → OrgState → Option Item × OrgState)
    (l : List Item) (st : OrgState) :
    (organize_items_step step l st).1
      = (List.range l.length).map (fun i =>
          ((step (l.getD i emptyItem) (items_state_after step l st i)).1).getD
            (l.getD i emptyItem)) := by
  induction l generalizing st with
  | nil => rfl
  | cons a l ih =>
    rw [organize_items_step]
    dsimp only
    rw [ih ((step a st).2)]
    rw [List.length_cons, List.range_succ_eq_map, List.map_cons, List.map_map]
    congr 1

theorem organize_items_step_length (step : Item → OrgState → Option Item × OrgState)
    (l : List Item) (st : OrgState) :
    ((organize_items_step step l st).1).length = l.length := by
  rw [organize_items_step_range]
  simp

/-- C7: a run on a mapping never fails, the output `items` sequence has the
same length as the input's, the item at index `i` of the output is the
organized form of the item at index `i` of the input (under the shared
state accumulated over the earlier items), and — for any per-item step,
also a failing one — a failed index retains its original item, so no item
is removed or reordered. -/
theorem c7_count_order_invariant (d : Document) (cfg : OrganizerConfig) (now : String)
    (seed : Nat) :
    ∃ out, organize_bitwarden_export (.dict d) cfg now seed = .ok out ∧
      (out.items.getD []).length = (d.items.getD []).length ∧
      out.items.getD []
        = (List.range (d.items.getD []).length).map (fun i =>
            (organize_item ((d.items.getD []).getD i emptyItem)
              (items_state_after (run_step cfg d.collections.isSome now)
                (d.items.getD []) ⟨d.folders.getD [], d.collections.getD [], seed⟩ i)
              cfg d.collections.isSome now).1) ∧
      (∀ (step : Item → OrgState → Option Item × OrgState) (l : List Item) (st : OrgState),
        (organize_items_step step l st).1
          = (List.range l.length).map (fun i =>
              ((step (l.getD i emptyItem) (items_state_after step l st i)).1).getD
                (l.getD i emptyItem))) := by
  by_cases hne : d.items.getD [] = []
  · refine ⟨d, ?_, by rw [hne], by rw [hne]; rfl, organize_items_step_range⟩
    simp [organize_bitwarden_export, hne]
  · simp only [organize_bitwarden_export]
    rw [if_neg hne]
    refine ⟨_, rfl, ?_, ?_, organize_items_step_range⟩
    · simp only [Option.getD_some]
      rw [organize_items, organize_items_step_length]
    · simp only [Option.getD_some]
      rw [organize_items, organize_items_step_range]
      apply List.map_congr_left
      intro i hi
      rfl

-- ------------------------------------------------------------------
-- C10 (amended): the notes header
-- ------------------------------------------------------------------

/-- C10 (amended): with metadata annotation enabled and a non-empty domain
list, the organized notes are the four header lines (domains, category,
sorted comma-joined tags, timestamp) followed, when the pre-existing notes
are non-empty after stripping, by a blank line and the STRIPPED original
note content. -/
theorem c10_notes_header_amended (item : Item) (st : OrgState) (cfg : OrganizerConfig)
    (org : Bool) (now : String) (hmeta : cfg.add_metadata = true)
    (hd : parse_domains item ≠ []) :
    ((organize_item item st cfg org now).1).notes
      = some (String.intercalate "\n"
            ["Domains: " ++ String.intercalate ", " (parse_domains item),
             "Category: " ++ catName item,
             "Tags: " ++ String.intercalate ", " (pySorted (catTags item)),
             "Processed: " ++ now]
          ++ (if pyStrip (item.notes.getD "") = "" then ""
              else "\n\n" ++ pyStrip (item.notes.getD ""))) := by
  have h1 : ((organize_item item st cfg org now).1).notes
      = some (enhance_notes item (parse_domains item)
          (categorize_item (parse_domains item)).1
          (categorize_item (parse_domains item)).2 now) := by
    simp only [organize_item, if_neg hd]
    split <;> (try split) <;> (try split) <;> (try split) <;> (try split) <;>
      first | rfl | simp_all
  rw [h1]
  simp only [enhance_notes, catName, catTags]
  rw [if_pos hd, if_pos (categorize_item_ok (parse_domains item)).1,
    if_pos (categorize_item_ok (parse_domains item)).2]
  by_cases hn : pyStrip (item.notes.getD "") = ""
  · rw [if_neg (by simpa using hn), if_pos hn]
    simp
  · rw [if_pos hn, if_neg hn]
    simp [String.append_assoc]

/-- C10 witness at the whitespace-padded item. -/
theorem c10_notes_header_witness :
    defaultConfig.add_metadata = true ∧ parse_domains padItem ≠ [] ∧
    ((organize_item padItem ⟨[], [], 0⟩ defaultConfig false "T").1).notes
      = some (String.intercalate "\n"
            ["Domains: " ++ String.intercalate ", " (parse_domains padItem),
             "Category: " ++ catName padItem,
             "Tags: " ++ String.intercalate ", " (pySorted (catTags padItem)),
             "Processed: " ++ "T"]
          ++ (if pyStrip (padItem.notes.getD "") = "" then ""
              else "\n\n" ++ pyStrip (padItem.notes.getD ""))) :=
  ⟨rfl, by decide,
   c10_notes_header_amended padItem ⟨[], [], 0⟩ defaultConfig false "T" rfl (by decide)⟩

-- ------------------------------------------------------------------
-- C3: idempotence machinery
-- ------------------------------------------------------------------

theorem findName_append {cs : List Folder} {n : String} {c : Folder}
    (h : findName cs n = some c) (ext : List Folder) :
    findName (cs ++ ext) n = some c := by
  rw [findName] at h ⊢
  rw [List.find?_append, h]
  rfl

theorem StableProfile_mono {cs : List Folder} {cfg : OrganizerConfig} {item1 : Item}
    (h : StableProfile cs cfg item1) (ext : List Folder) :
    StableProfile (cs ++ ext) cfg item1 := by
  rcases h with hd | ⟨h1, h2⟩
  · exact Or.inl hd
  · refine Or.inr ⟨?_, h2⟩
    intro hcf
    obtain ⟨c, hfind, hcid⟩ := h1 hcf
    exact ⟨c, findName_append hfind ext, hcid⟩

theorem set_labels_value_self {fs : List Field} {f0 : Field} {v : String}
    (h : firstLabels fs = some f0) (hv : f0.value = v) :
    set_labels_value fs v = fs := by
  induction fs with
  | nil => rfl
  | cons f fs ih =>
    by_cases hn : f.name = some "labels"
    · rw [firstLabels, List.find?_cons_of_pos _ (by simpa using hn)] at h
      have hf : f = f0 := Option.some.inj h
      rw [set_labels_value, if_pos hn]
      subst hf
      rw [← hv]
    · rw [firstLabels, List.find?_cons_of_neg _ (by simpa using hn)] at h
      rw [set_labels_value, if_neg hn, ih h]

theorem firstLabels_set {fs : List Field} {f0 : Field} (v : String)
    (h : firstLabels fs = some f0) :
    firstLabels (set_labels_value fs v) = some { f0 with value := v } := by
  induction fs with
  | nil => simp [firstLabels] at h
  | cons f fs ih =>
    by_cases hn : f.name = some "labels"
    · rw [firstLabels, List.find?_cons_of_pos _ (by simpa using hn)] at h
      have hf : f = f0 := Option.some.inj h
      subst hf
      rw [set_labels_value, if_pos hn, firstLabels,
        List.find?_cons_of_pos _ (by simpa using hn)]
    · rw [firstLabels, List.find?_cons_of_neg _ (by simpa using hn)] at h
      rw [set_labels_value, if_neg hn, firstLabels,
        List.find?_cons_of_neg _ (by simpa using hn)]
      exact ih h

theorem firstLabels_any {fs : List Field} {f0 : Field}
    (h : firstLabels fs = some f0) :
    fs.any (fun f => decide (f.name = some "labels")) = true := by
  rw [firstLabels] at h
  rw [List.any_eq_true]
  have hm := List.mem_of_find?_eq_some h
  have hp := List.find?_some h
  exact ⟨f0, hm, hp⟩

theorem firstLabels_none_of_any_false {fs : List Field}
    (h : fs.any (fun f => decide (f.name = some "labels")) = false) :
    firstLabels fs = none := by
  rw [firstLabels, List.find?_eq_none]
  intro x hx
  rw [List.any_eq_false] at h
  exact h x hx

theorem firstLabels_append_new {fs : List Field} (v : String)
    (h : firstLabels fs = none) :
    firstLabels (fs ++ [{ name := some "labels", value := v, type := 0 }])
      = some { name := some "labels", value := v, type := 0 } := by
  rw [firstLabels] at h ⊢
  rw [List.find?_append, h]
  rfl

/-- With tag-writing on and at least one domain, the organized item's field
list has a first `labels` field holding the joined sorted tags. -/
theorem organize_item_fields_tags (item : Item) (st : OrgState) (cfg : OrganizerConfig)
    (org : Bool) (now : String) (hd : parse_domains item ≠ [])
    (hat : cfg.add_tags = true) :
    ∃ f0, firstLabels (((organize_item item st cfg org now).1).fields.getD [])
        = some f0 ∧ f0.value = joined_tags item := by
  have hct := (categorize_item_ok (parse_domains item)).2
  have hfld : ((organize_item item st cfg org now).1).fields
      = some (if (item.fields.getD []).any (fun f => decide (f.name = some "labels")) then
          set_labels_value (item.fields.getD []) (joined_tags item)
        else (item.fields.getD [])
          ++ [{ name := some "labels", value := joined_tags item, type := 0 }]) := by
    simp only [organize_item, if_neg hd, joined_tags, catTags]
    split <;> (try split) <;> (try split) <;> (try split) <;> (try split) <;>
      first | rfl | simp_all
  rw [hfld]
  simp only [Option.getD_some]
  cases hany : (item.fields.getD []).any (fun f => decide (f.name = some "labels")) with
  | true =>
    rw [if_pos rfl]
    have hsome : (firstLabels (item.fields.getD [])).isSome = true := by
      rw [firstLabels, List.find?_isSome]
      rw [List.any_eq_true] at hany
      exact hany
    obtain ⟨f1, hf1⟩ := Option.isSome_iff_exists.mp hsome
    rw [firstLabels_set (joined_tags item) hf1]
    exact ⟨_, rfl, rfl⟩
  | false =>
    rw [if_neg (by simp)]
    rw [firstLabels_append_new (joined_tags item) (firstLabels_none_of_any_false hany)]
    exact ⟨_, rfl, rfl⟩

/-- In an organization vault the collection list only grows by appends. -/
theorem organize_item_org_collections_extend (item : Item) (st : OrgState)
    (cfg : OrganizerConfig) (now : String) :
    ∃ ext, ((organize_item item st cfg true now).2).collections
      = st.collections ++ ext := by
  by_cases hd : parse_domains item = []
  · exact ⟨[], by simp [organize_item, hd]⟩
  · by_cases hcf : cfg.create_folders = true
    · obtain ⟨-, h2, -, -⟩ := organize_item_orgvault_char item st cfg now hd hcf
      cases hf : findName st.collections (catName item) with
      | some c =>
        refine ⟨[], ?_⟩
        rw [h2, find_or_create_collection_found hf]
        simp
      | none =>
        refine ⟨[⟨gen_id st.nextId, some (catName item), now⟩], ?_⟩
        rw [h2, find_or_create_collection_new hf]
    · have h := organize_item_no_create item st cfg true now (by simpa using hcf)
      refine ⟨[], ?_⟩
      rw [h.1]
      simp

/-- An item just organized in an organization vault is stable with respect
to the resulting collection list. -/
theorem organize_item_org_profile (item : Item) (st : OrgState) (cfg : OrganizerConfig)
    (now : String) :
    StableProfile ((organize_item item st cfg true now).2).collections cfg
      ((organize_item item st cfg true now).1) := by
  by_cases hd : parse_domains item = []
  · left
    have heq : organize_item item st cfg true now = (item, st) := by
      simp [organize_item, hd]
    rw [heq]
    exact hd
  · right
    constructor
    · intro hcf
      obtain ⟨h1, h2, -, -⟩ := organize_item_orgvault_char item st cfg now hd hcf
      rw [catName_organize_item, h2, h1]
      cases hf : findName st.collections (catName item) with
      | some c =>
        rw [find_or_create_collection_found hf]
        exact ⟨c, hf, rfl⟩
      | none =>
        rw [find_or_create_collection_new hf]
        refine ⟨⟨gen_id st.nextId, some (catName item), now⟩, ?_, rfl⟩
        rw [findName, List.find?_append]
        rw [findName] at hf
        rw [hf]
        simp
    · intro hat
      have hjt : joined_tags ((organize_item item st cfg true now).1) = joined_tags item := by
        rw [joined_tags, joined_tags, catTags_organize_item]
      obtain ⟨f0, ha, hb⟩ := organize_item_fields_tags item st cfg true now hd hat
      refine ⟨f0, ha, ?_⟩
      rw [hjt]
      exact hb

/-- When the category already names a collection, organizing in an
organization vault leaves the whole shared state untouched and assigns that
collection's id. -/
theorem organize_item_org_found (item1 : Item) (st : OrgState) (cfg : OrganizerConfig)
    (now : String) (hd : parse_domains item1 ≠ []) (hcf : cfg.create_folders = true)
    {c : Folder} (hfind : findName st.collections (catName item1) = some c) :
    (organize_item item1 st cfg true now).2 = st ∧
    ((organize_item item1 st cfg true now).1).collectionIds = some [c.id] := by
  obtain ⟨h1, h2, h4, h3⟩ := organize_item_orgvault_char item1 st cfg now hd hcf
  have hfolders := organize_item_org_folders item1 st cfg now
  have hcol : ((organize_item item1 st cfg true now).2).collections = st.collections := by
    rw [h2, find_or_create_collection_found hfind]
  have hnid : ((organize_item item1 st cfg true now).2).nextId = st.nextId := by
    rw [h4, find_or_create_collection_found hfind]
  refine ⟨?_, by rw [h1, find_or_create_collection_found hfind]⟩
  show (organize_item item1 st cfg true now).2 = ⟨st.folders, st.collections, st.nextId⟩
  rw [← hfolders, ← hcol, ← hnid]

/-- Without tag-writing the field list is untouched. -/
theorem organize_item_fields_no_tags (item : Item) (st : OrgState) (cfg : OrganizerConfig)
    (org : Bool) (now : String) (hat : cfg.add_tags = false) :
    ((organize_item item st cfg org now).1).fields = item.fields := by
  by_cases hd : parse_domains item = []
  · simp [organize_item, hd]
  · simp only [organize_item, if_neg hd]
    split <;> (try split) <;> (try split) <;> (try split) <;> (try split) <;>
      first | rfl | simp_all

/-- With tag-writing on, the organized field list is the input one with the
first `labels` field overwritten (or a `labels` field appended). -/
theorem organize_item_fields_char (item : Item) (st : OrgState) (cfg : OrganizerConfig)
    (org : Bool) (now : String) (hd : parse_domains item ≠ [])
    (hat : cfg.add_tags = true) :
    ((organize_item item st cfg org now).1).fields
      = some (if (item.fields.getD []).any (fun f => decide (f.name = some "labels")) then
          set_labels_value (item.fields.getD []) (joined_tags item)
        else (item.fields.getD [])
          ++ [{ name := some "labels", value := joined_tags item, type := 0 }]) := by
  have hct := (categorize_item_ok (parse_domains item)).2
  simp only [organize_item, if_neg hd, joined_tags, catTags]
  split <;> (try split) <;> (try split) <;> (try split) <;> (try split) <;>
    first | rfl | simp_all

/-- Overwriting the first `labels` field with the value it already holds
keeps the field list unchanged. -/
theorem organize_item_fields_overwrite (item1 : Item) (st : OrgState)
    (cfg : OrganizerConfig) (org : Bool) (now : String)
    (hd : parse_domains item1 ≠ []) (hat : cfg.add_tags = true) {f0 : Field}
    (hfirst : firstLabels (item1.fields.getD []) = some f0)
    (hval : f0.value = joined_tags item1) :
    ((organize_item item1 st cfg org now).1).fields = item1.fields := by
  rw [organize_item_fields_char item1 st cfg org now hd hat]
  rw [if_pos (firstLabels_any hfirst)]
  rw [set_labels_value_self hfirst hval]
  cases hfs : item1.fields with
  | none =>
    rw [hfs] at hfirst
    simp [firstLabels] at hfirst
  | some fs =>
    rfl

/-- Processing a stable item in an organization vault changes neither the
shared state nor the item's fields or collection reference. -/
theorem organize_item_stable (item1 : Item) (st : OrgState) (cfg : OrganizerConfig)
    (now : String) (hprof : StableProfile st.collections cfg item1) :
    (organize_item item1 st cfg true now).2 = st ∧
    ((organize_item item1 st cfg true now).1).fields = item1.fields ∧
    ((organize_item item1 st cfg true now).1).collectionIds = item1.collectionIds := by
  by_cases hd : parse_domains item1 = []
  · have heq : organize_item item1 st cfg true now = (item1, st) := by
      simp [organize_item, hd]
    rw [heq]
    exact ⟨rfl, rfl, rfl⟩
  · rcases hprof with hd2 | ⟨hcoll, htags⟩
    · exact absurd hd2 hd
    · have hfields : ((organize_item item1 st cfg true now).1).fields = item1.fields := by
        cases hat : cfg.add_tags with
        | false => exact organize_item_fields_no_tags item1 st cfg true now hat
        | true =>
          obtain ⟨f0, hfirst, hval⟩ := htags hat
          exact organize_item_fields_overwrite item1 st cfg true now hd hat hfirst hval
      cases hcf : cfg.create_folders with
      | false =>
        have h := organize_item_no_create item1 st cfg true now hcf
        exact ⟨h.1, hfields, h.2.2⟩
      | true =>
        obtain ⟨c, hfind, hcid⟩ := hcoll hcf
        obtain ⟨hst, hcids⟩ := organize_item_org_found item1 st cfg now hd hcf hfind
        exact ⟨hst, hfields, by rw [hcids, hcid]⟩

/-- Invariants of a full organization-vault pass: folders untouched, the
collection list only extended, every output item stable with respect to the
final collection list, and categories preserved pointwise. -/
theorem organize_items_org_invariants (cfg : OrganizerConfig) (now : String) :
    ∀ (l : List Item) (st : OrgState),
      ((organize_items_step (run_step cfg true now) l st).2).folders = st.folders ∧
      (∃ ext, ((organize_items_step (run_step cfg true now) l st).2).collections
          = st.collections ++ ext) ∧
      (∀ it1 ∈ (organize_items_step (run_step cfg true now) l st).1,
        StableProfile ((organize_items_step (run_step cfg true now) l st).2).collections
          cfg it1) ∧
      ((organize_items_step (run_step cfg true now) l st).1).map catName
        = l.map catName := by
  intro l
  induction l with
  | nil =>
    intro st
    refine ⟨rfl, ⟨[], by simp [organize_items_step]⟩, ?_, rfl⟩
    intro it1 hit
    exact absurd hit (List.not_mem_nil it1)
  | cons a l ih =>
    intro st
    rw [organize_items_step]
    dsimp only [run_step]
    simp only [Option.getD_some]
    obtain ⟨ihf, ⟨ext2, ihc⟩, ihp, ihm⟩ := ih (organize_item a st cfg true now).2
    obtain ⟨ext1, hext1⟩ := organize_item_org_collections_extend a st cfg now
    refine ⟨?_, ⟨ext1 ++ ext2, ?_⟩, ?_, ?_⟩
    · rw [ihf, organize_item_org_folders]
    · rw [ihc, hext1, List.append_assoc]
    · intro it1 hit
      rcases List.mem_cons.mp hit with rfl | hmem
      · rw [ihc]
        exact StableProfile_mono (organize_item_org_profile a st cfg now) ext2
      · exact ihp it1 hmem
    · rw [List.map_cons, List.map_cons, ihm, catName_organize_item]

/-- A second organization-vault pass over stable items changes nothing:
the state is returned as given and fields, collection references and
categories are preserved pointwise. -/
theorem organize_items_org_stable (cfg : OrganizerConfig) (now : String) :
    ∀ (l1 : List Item) (st : OrgState),
      (∀ it1 ∈ l1, StableProfile st.collections cfg it1) →
      (organize_items_step (run_step cfg true now) l1 st).2 = st ∧
      ((organize_items_step (run_step cfg true now) l1 st).1).map (fun it => it.fields)
        = l1.map (fun it => it.fields) ∧
      ((organize_items_step (run_step cfg true now) l1 st).1).map
          (fun it => it.collectionIds)
        = l1.map (fun it => it.collectionIds) ∧
      ((organize_items_step (run_step cfg true now) l1 st).1).map catName
        = l1.map catName := by
  intro l1
  induction l1 with
  | nil =>
    intro st h
    exact ⟨rfl, rfl, rfl, rfl⟩
  | cons a l ih =>
    intro st h
    have hpa := h a (List.mem_cons_self a l)
    obtain ⟨hst, hfields, hcids⟩ := organize_item_stable a st cfg now hpa
    rw [organize_items_step]
    dsimp only [run_step]
    simp only [Option.getD_some]
    rw [hst]
    obtain ⟨ih1, ih2, ih3, ih4⟩ := ih st (fun it hit => h it (List.mem_cons_of_mem a hit))
    refine ⟨ih1, ?_, ?_, ?_⟩
    · rw [List.map_cons, List.map_cons, ih2, hfields]
    · rw [List.map_cons, List.map_cons, ih3, hcids]
    · rw [List.map_cons, List.map_cons, ih4, catName_organize_item]

/-- The shape of a non-trivial run as an explicit record update. -/
theorem organize_export_eq (d : Document) (cfg : OrganizerConfig) (now : String)
    (seed : Nat) (hne : d.items.getD [] ≠ []) :
    organize_bitwarden_export (.dict d) cfg now seed
      = .ok { d with
          folders := some ((organize_items_step (run_step cfg d.collections.isSome now)
            (d.items.getD [])
            ⟨d.folders.getD [], d.collections.getD [], seed⟩).2.folders),
          collections := some ((organize_items_step (run_step cfg d.collections.isSome now)
            (d.items.getD [])
            ⟨d.folders.getD [], d.collections.getD [], seed⟩).2.collections),
          items := some ((organize_items_step (run_step cfg d.collections.isSome now)
            (d.items.getD [])
            ⟨d.folders.getD [], d.collections.getD [], seed⟩).1) } := by
  simp only [organize_bitwarden_export, organize_items]
  rw [if_neg hne]

/-- C3 (counterexample): organizing a personal vault (no `collections` key)
and re-running on the output is NOT stable: the first run created the
folder `Developer` and an empty collection list, and the second run —
seeing the now-present `collections` key — appends a brand-new collection
named `Developer` and re-points the item at it, instead of resolving the
category to the already-existing folder; the item ends up carrying both
references. -/
theorem c3_counterexample :
    (orgOut (.dict ⟨some [], none, some [ghItem]⟩) defaultConfig "T" 0).folders
        = some [⟨"uuid-0", some "Developer", "T"⟩] ∧
    (orgOut (.dict ⟨some [], none, some [ghItem]⟩) defaultConfig "T" 0).collections
        = some [] ∧
    (orgOut (.dict (orgOut (.dict ⟨some [], none, some [ghItem]⟩) defaultConfig "T" 0))
        defaultConfig "T" 100).collections
        = some [⟨"uuid-100", some "Developer", "T"⟩] ∧
    ((orgOut (.dict (orgOut (.dict ⟨some [], none, some [ghItem]⟩) defaultConfig "T" 0))
        defaultConfig "T" 100).items.getD []).map (fun it => it.collectionIds)
        = [some ["uuid-100"]] ∧
    ((orgOut (.dict (orgOut (.dict ⟨some [], none, some [ghItem]⟩) defaultConfig "T" 0))
        defaultConfig "T" 100).items.getD []).map (fun it => it.folderId)
        = [some "uuid-0"] := by
  refine ⟨by decide, by decide, by decide, by decide, by decide⟩

/-- C3 (amended): for organization exports (a `collections` key present in
the input), re-running with the same configuration is stable: categories
are recomputed identically, the folder and collection lists are unchanged
by the second run (the category resolves to the existing collection), the
`labels` field is overwritten in place (field lists unchanged), and each
item's collection reference is unchanged. -/
theorem c3_idempotent_amended (d : Document) (cfg : OrganizerConfig) (now : String)
    (seed1 seed2 : Nat) (horg : d.collections.isSome = true) :
    ∃ o1 o2,
      organize_bitwarden_export (.dict d) cfg now seed1 = .ok o1 ∧
      organize_bitwarden_export (.dict o1) cfg now seed2 = .ok o2 ∧
      (o1.items.getD []).map catName = (d.items.getD []).map catName ∧
      (o2.items.getD []).map catName = (o1.items.getD []).map catName ∧
      o2.folders = o1.folders ∧
      o2.collections = o1.collections ∧
      (o2.items.getD []).map (fun it => it.fields)
        = (o1.items.getD []).map (fun it => it.fields) ∧
      (o2.items.getD []).map (fun it => it.collectionIds)
        = (o1.items.getD []).map (fun it => it.collectionIds) := by
  by_cases hne : d.items.getD [] = []
  · refine ⟨d, d, ?_, ?_, rfl, rfl, rfl, rfl, rfl, rfl⟩
    · simp [organize_bitwarden_export, hne]
    · simp [organize_bitwarden_export, hne]
  · have h1 := organize_export_eq d cfg now seed1 hne
    rw [horg] at h1
    obtain ⟨hf1, ⟨ext1, hc1⟩, hp1, hm1⟩ := organize_items_org_invariants cfg now
      (d.items.getD []) ⟨d.folders.getD [], d.collections.getD [], seed1⟩
    have hlen := organize_items_step_length (run_step cfg true now) (d.items.getD [])
      ⟨d.folders.getD [], d.collections.getD [], seed1⟩
    have hXne : (organize_items_step (run_step cfg true now) (d.items.getD [])
        ⟨d.folders.getD [], d.collections.getD [], seed1⟩).1 ≠ [] := by
      intro hc
      rw [hc] at hlen
      exact hne (List.eq_nil_of_length_eq_zero hlen.symm)
    have h2 := organize_export_eq
      { d with
        folders := some ((organize_items_step (run_step cfg true now) (d.items.getD [])
          ⟨d.folders.getD [], d.collections.getD [], seed1⟩).2.folders),
        collections := some ((organize_items_step (run_step cfg true now) (d.items.getD [])
          ⟨d.folders.getD [], d.collections.getD [], seed1⟩).2.collections),
        items := some ((organize_items_step (run_step cfg true now) (d.items.getD [])
          ⟨d.folders.getD [], d.collections.getD [], seed1⟩).1) }
      cfg now seed2 hXne
    dsimp only at h2
    simp only [Option.getD_some, Option.isSome_some] at h2
    obtain ⟨hst2, hmap2, hmap3, hmap4⟩ := organize_items_org_stable cfg now
      ((organize_items_step (run_step cfg true now) (d.items.getD [])
        ⟨d.folders.getD [], d.collections.getD [], seed1⟩).1)
      ⟨(organize_items_step (run_step cfg true now) (d.items.getD [])
        ⟨d.folders.getD [], d.collections.getD [], seed1⟩).2.folders,
       (organize_items_step (run_step cfg true now) (d.items.getD [])
        ⟨d.folders.getD [], d.collections.getD [], seed1⟩).2.collections, seed2⟩
      (fun it1 hit => hp1 it1 hit)
    refine ⟨_, _, h1, h2, ?_, ?_, ?_, ?_, ?_, ?_⟩
    · exact hm1
    · exact hmap4
    · rw [hst2]
    · rw [hst2]
    · exact hmap2
    · exact hmap3

/-- C3 witness at a concrete organization export. -/
theorem c3_idempotent_witness :
    (⟨none, some [], some [ghItem]⟩ : Document).collections.isSome = true ∧
    ∃ o1 o2,
      organize_bitwarden_export (.dict ⟨none, some [], some [ghItem]⟩)
          defaultConfig "T" 0 = .ok o1 ∧
      organize_bitwarden_export (.dict o1) defaultConfig "T" 1 = .ok o2 ∧
      (o1.items.getD []).map catName
        = ((⟨none, some [], some [ghItem]⟩ : Document).items.getD []).map catName ∧
      (o2.items.getD []).map catName = (o1.items.getD []).map catName ∧
      o2.folders = o1.folders ∧
      o2.collections = o1.collections ∧
      (o2.items.getD []).map (fun it => it.fields)
        = (o1.items.getD []).map (fun it => it.fields) ∧
      (o2.items.getD []).map (fun it => it.collectionIds)
        = (o1.items.getD []).map (fun it => it.collectionIds) :=
  ⟨rfl, c3_idempotent_amended ⟨none, some [], some [ghItem]⟩ defaultConfig "T" 0 1 rfl⟩

end Bw
